import Mathlib

/-!
Verification of the vci-proxy market-data server.

Shallow embedding of the core components:
- `CacheManager` (cache-manager.js): per-symbol stock-data store with
  field-wise merge (`updateStockData`) and whole-record replacement
  (`setStockData` / `setMultipleStockData`).
- `BroadcastService` (broadcast-service.js): downstream subscription hub with
  two inverse indexes (`clientSubscriptions`, `symbolSubscribers`), a
  connection map, and symbol-keyed fan-out (`broadcastUpdate`).
- `RealtimeManager` (realtime-manager.js): upstream feed client — message
  pipeline (`handleMessage` / `updateCache`) and the reconnect counters.

JavaScript objects holding market-data fields are embedded as partial maps
from field name to value (`Obj`); JS `Map`s are embedded as partial maps
from key to entry; JS `Set`s (which preserve insertion order) are embedded
as duplicate-free lists with append-if-absent insertion. JS numbers are
embedded as rationals; the metadata counters (`stats`, `lastUpdate`) of the
cache, which are derived values, are not part of the embedded state.
-/

/-- A JavaScript field value: number or string (the only value shapes the
decoded feed messages and stock records carry). -/
inductive JVal : Type where
  | num (q : ℚ)
  | str (s : String)
deriving DecidableEq

/-- A JavaScript object holding named fields, as a partial map from field
name to value. An absent field maps to `none`. -/
def Obj : Type := String → Option JVal

/-- The empty object `{}`. -/
def emptyObj : Obj := fun _ => none

/-- Build an `Obj` from a field list, as a JS object literal does
(no duplicate keys occur in the embedded literals). -/
def objOfList (ps : List (String × JVal)) : Obj :=
  fun k => (ps.find? (fun p => p.1 == k)).map (fun p => p.2)

/-- JS spread merge `\x7b ...a, ...b \x7d`: fields of `b` override fields of
`a`, fields mentioned by neither stay absent. -/
def mergeObj (a b : Obj) : Obj :=
  fun k => match b k with
    | some v => some v
    | none => a k

/-- Functional update of a string-keyed partial map (a JS `Map` write,
with `v = none` for `Map.delete`). -/
def mapUpd {α : Type} (m : String → Option α) (k : String) (v : Option α) :
    String → Option α :=
  fun q => if q = k then v else m q

/-- The embedded state of `CacheManager`: the `stockData` and
`marketIndexes` maps (symbol-keyed). -/
structure CacheState where
  stockData : String → Option Obj
  marketIndexes : String → Option Obj

/-- `CacheManager.setStockData` (cache-manager.js:57-60): whole-record write
`this.stockData.set(symbol, data)`. -/
def setStockData (symbol : String) (data : Obj) (c : CacheState) : CacheState :=
  { c with stockData := mapUpd c.stockData symbol (some data) }

/-- `CacheManager.setMultipleStockData` (cache-manager.js:66-71):
`Object.entries(stockDataMap).forEach(([symbol, data]) => this.setStockData(symbol, data))`. -/
def setMultipleStockData (stockDataMap : List (String × Obj)) (c : CacheState) :
    CacheState :=
  stockDataMap.foldl (fun acc p => setStockData p.1 p.2 acc) c

/-- `CacheManager.setMarketIndex` (cache-manager.js:89-92):
`this.marketIndexes.set(symbol, data)`. -/
def setMarketIndex (symbol : String) (data : Obj) (c : CacheState) : CacheState :=
  { c with marketIndexes := mapUpd c.marketIndexes symbol (some data) }

/-- `CacheManager.updateStockData` (cache-manager.js:199-203):
`existingData = this.stockData.get(symbol) || \x7b\x7d;`
`updatedData = \x7b ...existingData, ...updateData \x7d;`
`this.setStockData(symbol, updatedData)`. -/
def updateStockData (symbol : String) (updateData : Obj) (c : CacheState) :
    CacheState :=
  let existingData := (c.stockData symbol).getD emptyObj
  let updatedData := mergeObj existingData updateData
  setStockData symbol updatedData c

/-- Apply a sequence of partial updates to one symbol through
`updateStockData`, in order. -/
def applyUpdates (symbol : String) (us : List Obj) (c : CacheState) : CacheState :=
  us.foldl (fun acc u => updateStockData symbol u acc) c

/-- Field lookup through an optional record: absent record means every
field is absent. -/
def objLookup (o : Option Obj) (f : String) : Option JVal :=
  o.bind (fun obj => obj f)

/-- First-defined choice of two optional values. -/
def firstSome (a b : Option JVal) : Option JVal :=
  match a with
  | some v => some v
  | none => b

/-- The value of field `f` in the last update of `us` that mentions it
(later updates win). -/
def lastMention (us : List Obj) (f : String) : Option JVal :=
  match us with
  | [] => none
  | u :: rest => firstSome (lastMention rest f) (u f)

/-- The record paired with the last occurrence of key `k` in an entry
list (`Object.entries` of a JS object has unique keys, so this is simply
the record the payload carries for `k`). -/
def lastEntry (ps : List (String × Obj)) (k : String) : Option Obj :=
  match ps with
  | [] => none
  | p :: rest =>
    match lastEntry rest k with
    | some r => some r
    | none => if p.1 = k then some p.2 else none

theorem firstSome_assoc (a b c : Option JVal) :
    firstSome a (firstSome b c) = firstSome (firstSome a b) c := by
  cases a <;> cases b <;> rfl

theorem updateStockData_stockData_self (symbol : String) (u : Obj) (c : CacheState) (f : String) :
    objLookup ((updateStockData symbol u c).stockData symbol) f
      = firstSome (u f) (objLookup (c.stockData symbol) f) := by
  simp only [updateStockData, setStockData, mapUpd, objLookup, Option.bind,
    firstSome]
  cases hc : c.stockData symbol <;> cases hu : u f <;>
    simp [hc, hu, Option.getD, emptyObj, mergeObj]

/-- C1: for every symbol and every finite sequence of partial updates merged
through `updateStockData`, each field of the resulting record holds the value
of the last update that mentions the field, and a field mentioned by no
update keeps its initial value (and is absent when it was never set). -/
theorem updateStockData_last_write_wins (c : CacheState) (symbol : String)
    (us : List Obj) (f : String) :
    objLookup ((applyUpdates symbol us c).stockData symbol) f
      = firstSome (lastMention us f) (objLookup (c.stockData symbol) f) := by
  induction us generalizing c with
  | nil => simp [applyUpdates, lastMention, firstSome]
  | cons u rest ih =>
    have h1 : applyUpdates symbol (u :: rest) c
        = applyUpdates symbol rest (updateStockData symbol u c) := rfl
    rw [h1, ih, updateStockData_stockData_self, lastMention, ← firstSome_assoc]

theorem setMultipleStockData_stockData (ps : List (String × Obj)) (c : CacheState)
    (k : String) :
    (setMultipleStockData ps c).stockData k
      = match lastEntry ps k with
        | some r => some r
        | none => c.stockData k := by
  induction ps generalizing c with
  | nil => simp [setMultipleStockData, lastEntry]
  | cons p rest ih =>
    have h1 : setMultipleStockData (p :: rest) c
        = setMultipleStockData rest (setStockData p.1 p.2 c) := rfl
    rw [h1, ih]
    cases hrest : lastEntry rest k with
    | some r => simp [lastEntry, hrest]
    | none =>
      simp only [lastEntry, hrest, setStockData, mapUpd]
      by_cases hk : p.1 = k <;> simp [hk]
      exact fun h => absurd hk (by simp [h])

/-- C2: the bulk-load path `setMultipleStockData` replaces the whole record of
every symbol named in the payload: the symbol ends up bound to exactly the
payload record, so any field absent from the new record is absent afterwards
even if the old record had it. -/
theorem setMultipleStockData_replaces (c : CacheState) (payload : List (String × Obj))
    (symbol f : String) (r : Obj)
    (hlast : lastEntry payload symbol = some r) (habsent : r f = none) :
    (setMultipleStockData payload c).stockData symbol = some r ∧
      objLookup ((setMultipleStockData payload c).stockData symbol) f = none := by
  have h := setMultipleStockData_stockData payload c symbol
  rw [hlast] at h
  exact ⟨h, by rw [h]; simp [objLookup, habsent]⟩

/-- Witness for C2: bulk-loading `VIC ↦ \x7bref: 100, ceiling: 110\x7d` over a
cache where `VIC` also had a `khopLenhGia` field leaves `VIC` bound to
exactly the new two-field record, with `khopLenhGia` gone. -/
theorem setMultipleStockData_replaces_witness :
    (setMultipleStockData [("VIC", objOfList [("ref", JVal.num 100), ("ceiling", JVal.num 110)])]
        ⟨mapUpd (fun _ => none) "VIC" (some (objOfList [("khopLenhGia", JVal.num 99)])), fun _ => none⟩).stockData "VIC"
      = some (objOfList [("ref", JVal.num 100), ("ceiling", JVal.num 110)]) ∧
    objLookup ((setMultipleStockData [("VIC", objOfList [("ref", JVal.num 100), ("ceiling", JVal.num 110)])]
        ⟨mapUpd (fun _ => none) "VIC" (some (objOfList [("khopLenhGia", JVal.num 99)])), fun _ => none⟩).stockData "VIC") "khopLenhGia"
      = none :=
  setMultipleStockData_replaces _ _ _ _ _ (by rfl) (by rfl)

/-- JS `Set.add` on an insertion-ordered set: append if absent, no-op if
present. -/
def addS (l : List String) (x : String) : List String :=
  if x ∈ l then l else l ++ [x]

/-- JS `Set.delete` on an insertion-ordered set: remove the element,
keeping the order of the rest. -/
def delS (l : List String) (x : String) : List String :=
  l.filter (fun y => decide ¬(y = x))

theorem mem_addS (a x : String) (l : List String) :
    a ∈ addS l x ↔ a ∈ l ∨ a = x := by
  unfold addS
  by_cases hx : x ∈ l <;> simp [hx]
  exact fun h => h ▸ hx

theorem mem_delS (a x : String) (l : List String) :
    a ∈ delS l x ↔ a ∈ l ∧ a ≠ x := by
  simp [delS]

theorem addS_mem_self (x : String) (l : List String) : x ∈ addS l x := by
  rw [mem_addS]; exact Or.inr rfl

theorem addS_of_mem (x : String) (l : List String) (h : x ∈ l) : addS l x = l := by
  simp [addS, h]

/-- The embedded state of `BroadcastService` (broadcast-service.js:9-13):
`clientSubscriptions` (clientId -> Set of symbols), `symbolSubscribers`
(symbol -> Set of clientIds), and `connectedClients`
(clientId -> socket, of which we keep the `connected` flag). -/
structure HubState where
  clientSubscriptions : String → Option (List String)
  symbolSubscribers : String → Option (List String)
  connectedClients : String → Option Bool

/-- The hub before any client connects. -/
def emptyHub : HubState := ⟨fun _ => none, fun _ => none, fun _ => none⟩

/-- The subscriber set of a symbol (empty when the symbol has no entry). -/
def ssOf (h : HubState) (s : String) : List String :=
  (h.symbolSubscribers s).getD []

/-- The interest set of a client (empty when the client has no entry). -/
def csOf (h : HubState) (c : String) : List String :=
  (h.clientSubscriptions c).getD []

/-- One iteration of the `symbols.forEach` loop in
`BroadcastService.handleSubscription` (broadcast-service.js:443-451):
`clientSymbols.add(symbol)`, then ensure `symbolSubscribers` has an entry for
the symbol and add the client to it. -/
def subStep (clientId : String) (acc : HubState) (symbol : String) : HubState :=
  let cs := (acc.clientSubscriptions clientId).getD []
  let ss := (acc.symbolSubscribers symbol).getD []
  { acc with
      clientSubscriptions := mapUpd acc.clientSubscriptions clientId (some (addS cs symbol)),
      symbolSubscribers := mapUpd acc.symbolSubscribers symbol (some (addS ss clientId)) }

/-- `BroadcastService.handleSubscription` (broadcast-service.js:426-459), after
the JSON parse and array check (a failed parse or a non-array payload leaves
the state unchanged): create the client's subscription set if absent, then run
the per-symbol loop. The `eventType` argument is only logged, never used. -/
def handleSubscription (clientId : String) (eventType : String)
    (symbols : List String) (h : HubState) : HubState :=
  let h1 :=
    if (h.clientSubscriptions clientId).isSome then h
    else { h with clientSubscriptions := mapUpd h.clientSubscriptions clientId (some []) }
  symbols.foldl (subStep clientId) h1

/-- One iteration of the `symbols.forEach` loop in
`BroadcastService.handleUnsubscription` (broadcast-service.js:481-494):
`clientSymbols.delete(symbol)`; then, if the symbol has a subscriber entry,
delete the client from it and drop the entry entirely when it becomes empty. -/
def unsubStep (clientId : String) (acc : HubState) (symbol : String) : HubState :=
  let cs := (acc.clientSubscriptions clientId).getD []
  let acc1 := { acc with
      clientSubscriptions := mapUpd acc.clientSubscriptions clientId (some (delS cs symbol)) }
  match acc1.symbolSubscribers symbol with
  | none => acc1
  | some ss =>
    let ss1 := delS ss clientId
    { acc1 with
        symbolSubscribers :=
          mapUpd acc1.symbolSubscribers symbol (if ss1 = [] then none else some ss1) }

/-- `BroadcastService.handleUnsubscription` (broadcast-service.js:467-501),
after the JSON parse and array check: a client with no subscription entry is
ignored (`if (!clientSymbols) return`), otherwise the per-symbol loop runs.
The `eventType` argument is only logged, never used. -/
def handleUnsubscription (clientId : String) (eventType : String)
    (symbols : List String) (h : HubState) : HubState :=
  match h.clientSubscriptions clientId with
  | none => h
  | some _ => symbols.foldl (unsubStep clientId) h

/-- One iteration of the `clientSymbols.forEach` loop in
`BroadcastService.handleDisconnection` (broadcast-service.js:513-523): remove
the client from the symbol's subscriber set and drop the entry when it
becomes empty. -/
def discStep (clientId : String) (acc : HubState) (symbol : String) : HubState :=
  match acc.symbolSubscribers symbol with
  | none => acc
  | some ss =>
    let ss1 := delS ss clientId
    { acc with
        symbolSubscribers :=
          mapUpd acc.symbolSubscribers symbol (if ss1 = [] then none else some ss1) }

/-- `BroadcastService.handleDisconnection` (broadcast-service.js:507-532):
remove the client from the subscriber set of every symbol in its interest set,
delete the client's interest entry, and delete its connection handle. -/
def handleDisconnection (clientId : String) (h : HubState) : HubState :=
  let h1 :=
    match h.clientSubscriptions clientId with
    | none => h
    | some cs =>
      let h2 := cs.foldl (discStep clientId) h
      { h2 with clientSubscriptions := mapUpd h2.clientSubscriptions clientId none }
  { h1 with connectedClients := mapUpd h1.connectedClients clientId none }

/-- The client-facing hub operations routed by
`BroadcastService.setupEventHandlers` (broadcast-service.js:391-411). -/
inductive HubOp : Type where
  | sub (clientId eventType : String) (symbols : List String)
  | unsub (clientId eventType : String) (symbols : List String)
  | disc (clientId : String)

/-- Apply one hub operation. -/
def applyOp (h : HubState) : HubOp → HubState
  | .sub c e syms => handleSubscription c e syms h
  | .unsub c e syms => handleUnsubscription c e syms h
  | .disc c => handleDisconnection c h

/-- Run a sequence of hub operations from the empty hub. -/
def applyOps (ops : List HubOp) : HubState :=
  ops.foldl applyOp emptyHub

/-- The mutual-inverse property of the two subscription indexes. -/
def HubInv (h : HubState) : Prop :=
  ∀ c s, c ∈ ssOf h s ↔ s ∈ csOf h c

theorem ssOf_mapUpd (m : HubState) (k : String) (v : Option (List String)) (s : String) :
    ssOf { m with symbolSubscribers := mapUpd m.symbolSubscribers k v } s
      = if s = k then v.getD [] else ssOf m s := by
  simp only [ssOf, mapUpd]
  by_cases h : s = k <;> simp [h]

theorem csOf_mapUpd (m : HubState) (k : String) (v : Option (List String)) (c : String) :
    csOf { m with clientSubscriptions := mapUpd m.clientSubscriptions k v } c
      = if c = k then v.getD [] else csOf m c := by
  simp only [csOf, mapUpd]
  by_cases h : c = k <;> simp [h]

theorem subStep_inv (clientId symbol : String) (h : HubState) (hinv : HubInv h) :
    HubInv (subStep clientId h symbol) := by
  intro c s
  simp only [subStep]
  rw [show ssOf { h with
      clientSubscriptions := mapUpd h.clientSubscriptions clientId
        (some (addS ((h.clientSubscriptions clientId).getD []) symbol)),
      symbolSubscribers := mapUpd h.symbolSubscribers symbol
        (some (addS ((h.symbolSubscribers symbol).getD []) clientId)) } s
    = if s = symbol then addS (ssOf h symbol) clientId else ssOf h s from by
      simp only [ssOf, mapUpd]; by_cases hs : s = symbol <;> simp [hs]]
  rw [show csOf { h with
      clientSubscriptions := mapUpd h.clientSubscriptions clientId
        (some (addS ((h.clientSubscriptions clientId).getD []) symbol)),
      symbolSubscribers := mapUpd h.symbolSubscribers symbol
        (some (addS ((h.symbolSubscribers symbol).getD []) clientId)) } c
    = if c = clientId then addS (csOf h clientId) symbol else csOf h c from by
      simp only [csOf, mapUpd]; by_cases hc : c = clientId <;> simp [hc]]
  by_cases hs : s = symbol <;> by_cases hc : c = clientId
  · rw [if_pos hs, if_pos hc]
    exact iff_of_true (by rw [mem_addS]; exact Or.inr hc) (by rw [mem_addS]; exact Or.inr hs)
  · rw [if_pos hs, if_neg hc, mem_addS]
    constructor
    · rintro (hm | he)
      · exact hs ▸ (hinv c symbol).1 hm
      · exact absurd he hc
    · exact fun hm => Or.inl ((hinv c symbol).2 (hs ▸ hm))
  · rw [if_neg hs, if_pos hc, mem_addS]
    constructor
    · exact fun hm => Or.inl (hc ▸ (hinv c s).1 hm)
    · rintro (hm | he)
      · exact (hinv c s).2 (hc ▸ hm)
      · exact absurd he hs
  · rw [if_neg hs, if_neg hc]
    exact hinv c s

theorem mem_pruned_delS (a x : String) (ss : List String) :
    a ∈ (if delS ss x = [] then none else some (delS ss x) : Option (List String)).getD []
      ↔ a ∈ ss ∧ a ≠ x := by
  rw [← mem_delS]
  by_cases hemp : delS ss x = []
  · rw [if_pos hemp, hemp]
    simp
  · rw [if_neg hemp]
    simp

theorem unsubStep_symbolSubscribers (clientId symbol s : String) (h : HubState) :
    (unsubStep clientId h symbol).symbolSubscribers s
      = if s = symbol
        then (if delS (ssOf h symbol) clientId = []
              then none else some (delS (ssOf h symbol) clientId))
        else h.symbolSubscribers s := by
  simp only [unsubStep, ssOf]
  cases hss : h.symbolSubscribers symbol with
  | none =>
    by_cases hs : s = symbol
    · subst hs
      rw [if_pos rfl]
      simp [delS, hss]
    · simp [hs]
  | some ss =>
    by_cases hs : s = symbol
    · subst hs
      simp [mapUpd, hss]
    · simp [mapUpd, hs, hss]

theorem mem_ssOf_unsubStep (a clientId symbol s : String) (h : HubState) :
    a ∈ ssOf (unsubStep clientId h symbol) s
      ↔ a ∈ ssOf h s ∧ (s = symbol → a ≠ clientId) := by
  have he := unsubStep_symbolSubscribers clientId symbol s h
  simp only [ssOf] at he ⊢
  rw [he]
  by_cases hs : s = symbol
  · rw [if_pos hs]
    rw [show ((h.symbolSubscribers symbol).getD [] : List String) = ssOf h symbol from rfl,
      mem_pruned_delS]
    subst hs
    simp [ssOf]
  · rw [if_neg hs]
    simp [hs]

theorem csOf_unsubStep (clientId symbol c : String) (h : HubState) :
    csOf (unsubStep clientId h symbol) c
      = if c = clientId then delS (csOf h clientId) symbol else csOf h c := by
  simp only [unsubStep]
  cases hss : h.symbolSubscribers symbol <;>
    simp only [hss, csOf, mapUpd] <;>
    by_cases hc : c = clientId <;> simp [hc]

theorem unsubStep_inv (clientId symbol : String) (h : HubState) (hinv : HubInv h) :
    HubInv (unsubStep clientId h symbol) := by
  intro c s
  rw [mem_ssOf_unsubStep, csOf_unsubStep]
  by_cases hc : c = clientId
  · subst hc
    rw [if_pos rfl, mem_delS, ← hinv c s]
    constructor
    · rintro ⟨hm, hi⟩
      exact ⟨hm, fun he => (hi he) rfl⟩
    · rintro ⟨hm, hne⟩
      exact ⟨hm, fun he => absurd he hne⟩
  · rw [if_neg hc, ← hinv c s]
    exact ⟨fun ⟨hm, _⟩ => hm, fun hm => ⟨hm, fun _ => hc⟩⟩

theorem discStep_symbolSubscribers (clientId symbol s : String) (h : HubState) :
    (discStep clientId h symbol).symbolSubscribers s
      = if s = symbol
        then (if delS (ssOf h symbol) clientId = []
              then none else some (delS (ssOf h symbol) clientId))
        else h.symbolSubscribers s := by
  simp only [discStep, ssOf]
  cases hss : h.symbolSubscribers symbol with
  | none =>
    by_cases hs : s = symbol
    · subst hs
      rw [if_pos rfl]
      simp [delS, hss]
    · simp [hs]
  | some ss =>
    by_cases hs : s = symbol
    · subst hs
      simp [mapUpd, hss]
    · simp [mapUpd, hs, hss]

theorem mem_ssOf_discStep (a clientId symbol s : String) (h : HubState) :
    a ∈ ssOf (discStep clientId h symbol) s
      ↔ a ∈ ssOf h s ∧ (s = symbol → a ≠ clientId) := by
  have he := discStep_symbolSubscribers clientId symbol s h
  simp only [ssOf] at he ⊢
  rw [he]
  by_cases hs : s = symbol
  · rw [if_pos hs]
    rw [show ((h.symbolSubscribers symbol).getD [] : List String) = ssOf h symbol from rfl,
      mem_pruned_delS]
    subst hs
    simp [ssOf]
  · rw [if_neg hs]
    simp [hs]

theorem discStep_clientSubscriptions (clientId symbol : String) (h : HubState) :
    (discStep clientId h symbol).clientSubscriptions = h.clientSubscriptions := by
  simp only [discStep]
  cases h.symbolSubscribers symbol <;> rfl

theorem discStep_connectedClients (clientId symbol : String) (h : HubState) :
    (discStep clientId h symbol).connectedClients = h.connectedClients := by
  simp only [discStep]
  cases h.symbolSubscribers symbol <;> rfl

theorem discFold_clientSubscriptions (clientId : String) (l : List String) (h : HubState) :
    (l.foldl (discStep clientId) h).clientSubscriptions = h.clientSubscriptions := by
  induction l generalizing h with
  | nil => rfl
  | cons x xs ih => rw [List.foldl_cons, ih, discStep_clientSubscriptions]

theorem discFold_connectedClients (clientId : String) (l : List String) (h : HubState) :
    (l.foldl (discStep clientId) h).connectedClients = h.connectedClients := by
  induction l generalizing h with
  | nil => rfl
  | cons x xs ih => rw [List.foldl_cons, ih, discStep_connectedClients]

theorem mem_ssOf_discFold (a clientId s : String) (l : List String) (h : HubState) :
    a ∈ ssOf (l.foldl (discStep clientId) h) s
      ↔ a ∈ ssOf h s ∧ (a = clientId → s ∉ l) := by
  induction l generalizing h with
  | nil => simp
  | cons x xs ih =>
    rw [List.foldl_cons, ih, mem_ssOf_discStep]
    constructor
    · rintro ⟨⟨hm, hsx⟩, hnx⟩
      refine ⟨hm, fun ha => ?_⟩
      intro hmem
      rcases List.mem_cons.1 hmem with he | ht
      · exact (hsx he) ha
      · exact (hnx ha) ht
    · rintro ⟨hm, hni⟩
      refine ⟨⟨hm, fun he ha => ?_⟩, fun ha => ?_⟩
      · exact (hni ha) (he ▸ List.mem_cons_self x xs)
      · exact fun ht => (hni ha) (List.mem_cons_of_mem x ht)

theorem csOf_handleDisconnection (clientId c : String) (h : HubState) :
    csOf (handleDisconnection clientId h) c
      = if c = clientId then [] else csOf h c := by
  simp only [handleDisconnection]
  cases hcs : h.clientSubscriptions clientId with
  | none =>
    by_cases hc : c = clientId
    · subst hc
      simp [csOf, hcs]
    · simp [csOf, hc]
  | some cs =>
    by_cases hc : c = clientId <;>
      simp [csOf, mapUpd, hc, discFold_clientSubscriptions]

theorem connectedClients_handleDisconnection (clientId c : String) (h : HubState) :
    (handleDisconnection clientId h).connectedClients c
      = if c = clientId then none else h.connectedClients c := by
  simp only [handleDisconnection]
  cases hcs : h.clientSubscriptions clientId with
  | none =>
    by_cases hc : c = clientId <;> simp [mapUpd, hc]
  | some cs =>
    by_cases hc : c = clientId <;>
      simp [mapUpd, hc, discFold_connectedClients]

theorem mem_ssOf_handleDisconnection (a clientId s : String) (h : HubState) :
    a ∈ ssOf (handleDisconnection clientId h) s
      ↔ a ∈ ssOf h s ∧ (a = clientId → s ∉ csOf h clientId) := by
  cases hcs : h.clientSubscriptions clientId with
  | none =>
    have hcast : a ∈ ssOf (handleDisconnection clientId h) s ↔ a ∈ ssOf h s := by
      simp only [handleDisconnection, hcs]
      exact Iff.rfl
    rw [hcast]
    simp [csOf, hcs]
  | some cs =>
    have hcast : a ∈ ssOf (handleDisconnection clientId h) s
        ↔ a ∈ ssOf (cs.foldl (discStep clientId) h) s := by
      simp only [handleDisconnection, hcs]
      exact Iff.rfl
    rw [hcast, mem_ssOf_discFold]
    simp [csOf, hcs]

theorem handleSubscription_inv (clientId eventType : String) (symbols : List String)
    (h : HubState) (hinv : HubInv h) :
    HubInv (handleSubscription clientId eventType symbols h) := by
  simp only [handleSubscription]
  have hinv1 : HubInv (if (h.clientSubscriptions clientId).isSome then h
      else { h with clientSubscriptions := mapUpd h.clientSubscriptions clientId (some []) }) := by
    by_cases he : (h.clientSubscriptions clientId).isSome
    · rwa [if_pos he]
    · rw [if_neg he]
      intro c s
      have hcs2 : csOf { h with
          clientSubscriptions := mapUpd h.clientSubscriptions clientId (some []) } c
          = csOf h c := by
        simp only [csOf, mapUpd]
        by_cases hc : c = clientId
        · subst hc
          rw [if_pos rfl]
          cases hcs : h.clientSubscriptions c with
          | none => simp
          | some l => rw [hcs] at he; simp at he
        · rw [if_neg hc]
      have hss2 : ssOf { h with
          clientSubscriptions := mapUpd h.clientSubscriptions clientId (some []) } s
          = ssOf h s := rfl
      rw [hss2, hcs2]
      exact hinv c s
  generalize hstart : (if (h.clientSubscriptions clientId).isSome then h
      else { h with clientSubscriptions := mapUpd h.clientSubscriptions clientId (some []) }) = h1 at hinv1
  clear hstart hinv
  induction symbols generalizing h1 with
  | nil => exact hinv1
  | cons x xs ih =>
    rw [List.foldl_cons]
    exact ih (subStep clientId h1 x) (subStep_inv clientId x h1 hinv1)

theorem handleUnsubscription_inv (clientId eventType : String) (symbols : List String)
    (h : HubState) (hinv : HubInv h) :
    HubInv (handleUnsubscription clientId eventType symbols h) := by
  simp only [handleUnsubscription]
  cases h.clientSubscriptions clientId with
  | none => exact hinv
  | some cs =>
    induction symbols generalizing h with
    | nil => exact hinv
    | cons x xs ih =>
      rw [List.foldl_cons]
      exact ih (unsubStep clientId h x) (unsubStep_inv clientId x h hinv)

theorem handleDisconnection_inv (clientId : String) (h : HubState) (hinv : HubInv h) :
    HubInv (handleDisconnection clientId h) := by
  intro c s
  rw [mem_ssOf_handleDisconnection, csOf_handleDisconnection]
  by_cases hc : c = clientId
  · subst hc
    rw [if_pos rfl]
    simp only [List.not_mem_nil, iff_false]
    rintro ⟨hm, hni⟩
    exact (hni (by trivial)) ((hinv c s).1 hm)
  · rw [if_neg hc, ← hinv c s]
    exact ⟨fun ⟨hm, _⟩ => hm, fun hm => ⟨hm, fun he => absurd he hc⟩⟩

theorem applyOp_inv (op : HubOp) (h : HubState) (hinv : HubInv h) :
    HubInv (applyOp h op) := by
  cases op with
  | sub c e syms => exact handleSubscription_inv c e syms h hinv
  | unsub c e syms => exact handleUnsubscription_inv c e syms h hinv
  | disc c => exact handleDisconnection_inv c h hinv

/-- C3: after every sequence of hub operations (subscribe, unsubscribe,
disconnect) from the empty hub, the two subscription indexes are mutual
inverses: a client is in a symbol's subscriber set exactly when the symbol is
in that client's interest set. -/
theorem hub_indexes_mutual_inverse (ops : List HubOp) (c s : String) :
    c ∈ ssOf (applyOps ops) s ↔ s ∈ csOf (applyOps ops) c := by
  suffices hgen : ∀ (l : List HubOp) (h : HubState), HubInv h → HubInv (l.foldl applyOp h) by
    have hempty : HubInv emptyHub := by
      intro c0 s0
      simp [ssOf, csOf, emptyHub]
    exact hgen ops emptyHub hempty c s
  intro l
  induction l with
  | nil => exact fun h hi => hi
  | cons op rest ih =>
    intro h hi
    rw [List.foldl_cons]
    exact ih (applyOp h op) (applyOp_inv op h hi)

theorem mapUpd_apply_self {α : Type} (m : String → Option α) (k : String) (v : Option α) :
    mapUpd m k v k = v := by
  simp [mapUpd]

theorem mapUpd_mapUpd {α : Type} (m : String → Option α) (k : String) (v w : Option α) :
    mapUpd (mapUpd m k v) k w = mapUpd m k w := by
  funext q
  simp only [mapUpd]
  by_cases hq : q = k <;> simp [hq]

theorem mapUpd_entry {α : Type} (m : String → Option α) (k : String) (t : α)
    (h : m k = some t) : mapUpd m k (some t) = m := by
  funext q
  simp only [mapUpd]
  by_cases hq : q = k
  · subst hq
    rw [if_pos rfl, h]
  · rw [if_neg hq]

/-- Add every element of `xs` to the insertion-ordered set `l`, in order. -/
def addAll (l : List String) (xs : List String) : List String :=
  xs.foldl addS l

/-- Delete every element of `xs` from the insertion-ordered set `l`. -/
def delAll (l : List String) (xs : List String) : List String :=
  xs.foldl delS l

theorem subStep_clientSubscriptions (clientId symbol : String) (h : HubState) :
    (subStep clientId h symbol).clientSubscriptions
      = mapUpd h.clientSubscriptions clientId
          (some (addS ((h.clientSubscriptions clientId).getD []) symbol)) := rfl

theorem subFold_clientSubscriptions (clientId : String) (S : List String) (h : HubState)
    (t : List String) (hentry : h.clientSubscriptions clientId = some t) :
    (S.foldl (subStep clientId) h).clientSubscriptions
      = mapUpd h.clientSubscriptions clientId (some (addAll t S)) := by
  induction S generalizing h t with
  | nil =>
    simp only [List.foldl_nil, addAll, List.foldl_nil]
    exact (mapUpd_entry _ _ _ hentry).symm
  | cons x xs ih =>
    rw [List.foldl_cons]
    have hstep : (subStep clientId h x).clientSubscriptions clientId
        = some (addS t x) := by
      rw [subStep_clientSubscriptions, mapUpd_apply_self, hentry]
      rfl
    rw [ih (subStep clientId h x) (addS t x) hstep,
      subStep_clientSubscriptions, mapUpd_mapUpd]
    have haa : addAll t (x :: xs) = addAll (addS t x) xs := by
      simp only [addAll, List.foldl_cons]
    rw [haa]

theorem subStep_symbolSubscribers (clientId symbol s : String) (h : HubState) :
    (subStep clientId h symbol).symbolSubscribers s
      = if s = symbol
        then some (addS ((h.symbolSubscribers symbol).getD []) clientId)
        else h.symbolSubscribers s := by
  simp only [subStep, mapUpd]

theorem subStep_connectedClients (clientId symbol : String) (h : HubState) :
    (subStep clientId h symbol).connectedClients = h.connectedClients := rfl

theorem subFold_symbolSubscribers (clientId s : String) (S : List String) (h : HubState) :
    (S.foldl (subStep clientId) h).symbolSubscribers s
      = if s ∈ S
        then some (addS ((h.symbolSubscribers s).getD []) clientId)
        else h.symbolSubscribers s := by
  induction S generalizing h with
  | nil => simp
  | cons x xs ih =>
    rw [List.foldl_cons, ih (subStep clientId h x)]
    by_cases hmem : s ∈ xs
    · rw [if_pos hmem, if_pos (List.mem_cons_of_mem x hmem),
        subStep_symbolSubscribers]
      by_cases hsx : s = x
      · subst hsx
        rw [if_pos rfl]
        simp only [Option.getD_some]
        rw [addS_of_mem _ _ (addS_mem_self clientId _)]
      · rw [if_neg hsx]
    · rw [if_neg hmem, subStep_symbolSubscribers]
      by_cases hsx : s = x
      · subst hsx
        rw [if_pos rfl, if_pos (List.mem_cons_self s xs)]
      · rw [if_neg hsx, if_neg (by
          intro hc
          rcases List.mem_cons.1 hc with he | ht
          · exact hsx he
          · exact hmem ht)]

theorem handleSubscription_of_entry (clientId eventType : String) (S : List String)
    (h : HubState) (t : List String) (hentry : h.clientSubscriptions clientId = some t) :
    handleSubscription clientId eventType S h = S.foldl (subStep clientId) h := by
  simp only [handleSubscription, hentry, Option.isSome_some, if_true]

theorem unsubStep_clientSubscriptions (clientId symbol : String) (h : HubState) :
    (unsubStep clientId h symbol).clientSubscriptions
      = mapUpd h.clientSubscriptions clientId
          (some (delS ((h.clientSubscriptions clientId).getD []) symbol)) := by
  simp only [unsubStep]
  cases h.symbolSubscribers symbol <;> rfl

theorem unsubFold_clientSubscriptions (clientId : String) (S : List String) (h : HubState)
    (t : List String) (hentry : h.clientSubscriptions clientId = some t) :
    (S.foldl (unsubStep clientId) h).clientSubscriptions
      = mapUpd h.clientSubscriptions clientId (some (delAll t S)) := by
  induction S generalizing h t with
  | nil =>
    simp only [List.foldl_nil, delAll, List.foldl_nil]
    exact (mapUpd_entry _ _ _ hentry).symm
  | cons x xs ih =>
    rw [List.foldl_cons]
    have hstep : (unsubStep clientId h x).clientSubscriptions clientId
        = some (delS t x) := by
      rw [unsubStep_clientSubscriptions, mapUpd_apply_self, hentry]
      rfl
    rw [ih (unsubStep clientId h x) (delS t x) hstep,
      unsubStep_clientSubscriptions, mapUpd_mapUpd]
    have hda : delAll t (x :: xs) = delAll (delS t x) xs := by
      simp only [delAll, List.foldl_cons]
    rw [hda]

theorem delS_delS (l : List String) (x : String) : delS (delS l x) x = delS l x := by
  induction l with
  | nil => rfl
  | cons a as ih =>
    by_cases ha : a = x <;> simp [delS, ha]

theorem getD_pruned (l : List String) :
    (if l = [] then none else some l : Option (List String)).getD [] = l := by
  by_cases hl : l = [] <;> simp [hl]

theorem unsubFold_symbolSubscribers (clientId s : String) (S : List String) (h : HubState) :
    (S.foldl (unsubStep clientId) h).symbolSubscribers s
      = if s ∈ S
        then (if delS (ssOf h s) clientId = []
              then none else some (delS (ssOf h s) clientId))
        else h.symbolSubscribers s := by
  induction S generalizing h with
  | nil => simp
  | cons x xs ih =>
    rw [List.foldl_cons, ih (unsubStep clientId h x)]
    by_cases hmem : s ∈ xs
    · rw [if_pos hmem, if_pos (List.mem_cons_of_mem x hmem)]
      by_cases hsx : s = x
      · subst hsx
        have hss : ssOf (unsubStep clientId h s) s = delS (ssOf h s) clientId := by
          simp only [ssOf]
          rw [unsubStep_symbolSubscribers, if_pos rfl, getD_pruned]
          rfl
        rw [hss, delS_delS]
      · have hss : ssOf (unsubStep clientId h x) s = ssOf h s := by
          simp only [ssOf, unsubStep_symbolSubscribers, if_neg hsx]
        rw [hss]
    · rw [if_neg hmem, unsubStep_symbolSubscribers]
      by_cases hsx : s = x
      · subst hsx
        rw [if_pos rfl, if_pos (List.mem_cons_self s xs)]
      · rw [if_neg hsx, if_neg (by
          intro hc
          rcases List.mem_cons.1 hc with he | ht
          · exact hsx he
          · exact hmem ht)]

theorem delAll_eq_filter (xs : List String) (l : List String) :
    delAll l xs = l.filter (fun y => decide ¬(y ∈ xs)) := by
  induction xs generalizing l with
  | nil => simp [delAll]
  | cons x rest ih =>
    have h1 : delAll l (x :: rest) = delAll (delS l x) rest := by
      simp only [delAll, List.foldl_cons]
    rw [h1, ih, delS, List.filter_filter]
    apply List.filter_congr
    intro y hy
    simp only [List.mem_cons, not_or]
    by_cases h2 : y = x <;> by_cases h3 : y ∈ rest <;> simp [h2, h3]

theorem addAll_filter (p : String → Bool) (xs : List String) (l : List String)
    (hp : ∀ s ∈ xs, p s = false) :
    (addAll l xs).filter p = l.filter p := by
  induction xs generalizing l with
  | nil => simp [addAll]
  | cons x rest ih =>
    have h1 : addAll l (x :: rest) = addAll (addS l x) rest := by
      simp only [addAll, List.foldl_cons]
    rw [h1, ih (addS l x) (fun s hs => hp s (List.mem_cons_of_mem x hs))]
    unfold addS
    by_cases hx : x ∈ l
    · rw [if_pos hx]
    · rw [if_neg hx, List.filter_append]
      have hpx : p x = false := hp x (List.mem_cons_self x rest)
      simp [hpx]

theorem delAll_addAll (t : List String) (xs : List String)
    (hdisj : ∀ s ∈ xs, s ∉ t) :
    delAll (addAll t xs) xs = t := by
  rw [delAll_eq_filter, addAll_filter]
  · rw [List.filter_eq_self]
    intro a ha
    simp only [decide_eq_true_eq]
    exact fun hm => (hdisj a hm) ha
  · intro s hs
    simp [hs]

theorem delS_addS (l : List String) (x : String) (hx : x ∉ l) :
    delS (addS l x) x = l := by
  rw [addS, if_neg hx, delS, List.filter_append]
  have h1 : l.filter (fun y => decide ¬(y = x)) = l :=
    List.filter_eq_self.mpr (fun a ha => decide_eq_true (fun he => hx (he ▸ ha)))
  rw [h1]
  simp

theorem unsubStep_no_empty (clientId x s : String) (h : HubState)
    (hne : h.symbolSubscribers s ≠ some []) :
    (unsubStep clientId h x).symbolSubscribers s ≠ some [] := by
  rw [unsubStep_symbolSubscribers]
  by_cases hs : s = x
  · rw [if_pos hs]
    by_cases hemp : delS (ssOf h x) clientId = []
    · simp [hemp]
    · simp only [if_neg hemp]
      intro hcontr
      exact hemp (Option.some_injective _ hcontr)
  · rwa [if_neg hs]

theorem unsubFold_no_empty (clientId s : String) (S : List String) (h : HubState)
    (hne : h.symbolSubscribers s ≠ some []) :
    ((S.foldl (unsubStep clientId) h).symbolSubscribers s) ≠ some [] := by
  induction S generalizing h with
  | nil => exact hne
  | cons x xs ih =>
    rw [List.foldl_cons]
    exact ih (unsubStep clientId h x) (unsubStep_no_empty clientId x s h hne)

/-- C4 (amended): when the client already has an interest entry `t`, none of
the symbols of `S` is already in `t`, the client is not already in any of
their subscriber sets, and none of them has a residual empty subscriber
entry, then `handleSubscription` followed by `handleUnsubscription` on the
same symbol list restores both indexes exactly; and, in general,
`handleUnsubscription` never leaves a present-but-empty subscriber entry
behind (emptied entries are pruned). -/
theorem sub_unsub_roundtrip (h h2 : HubState)
    (clientId clientId2 et1 et2 et3 s2 : String)
    (S S2 : List String) (t : List String)
    (hentry : h.clientSubscriptions clientId = some t)
    (hdisj : ∀ s ∈ S, s ∉ t)
    (hnotin : ∀ s ∈ S, clientId ∉ (h.symbolSubscribers s).getD [])
    (hnoempty : ∀ s ∈ S, h.symbolSubscribers s ≠ some [])
    (h2ne : h2.symbolSubscribers s2 ≠ some []) :
    ((handleUnsubscription clientId et2 S
        (handleSubscription clientId et1 S h)).clientSubscriptions
        = h.clientSubscriptions
      ∧ (handleUnsubscription clientId et2 S
          (handleSubscription clientId et1 S h)).symbolSubscribers
        = h.symbolSubscribers)
    ∧ (handleUnsubscription clientId2 et3 S2 h2).symbolSubscribers s2 ≠ some [] := by
  constructor
  · rw [handleSubscription_of_entry clientId et1 S h t hentry]
    have hsubcs := subFold_clientSubscriptions clientId S h t hentry
    have hsubentry : (S.foldl (subStep clientId) h).clientSubscriptions clientId
        = some (addAll t S) := by
      rw [hsubcs, mapUpd_apply_self]
    have hunsub : handleUnsubscription clientId et2 S (S.foldl (subStep clientId) h)
        = S.foldl (unsubStep clientId) (S.foldl (subStep clientId) h) := by
      simp only [handleUnsubscription, hsubentry]
    rw [hunsub]
    constructor
    · rw [unsubFold_clientSubscriptions clientId S _ (addAll t S) hsubentry,
        hsubcs, mapUpd_mapUpd, delAll_addAll t S hdisj]
      exact mapUpd_entry _ _ _ hentry
    · funext s
      rw [unsubFold_symbolSubscribers, subFold_symbolSubscribers]
      by_cases hmem : s ∈ S
      · rw [if_pos hmem]
        have hssOf : ssOf (S.foldl (subStep clientId) h) s
            = addS ((h.symbolSubscribers s).getD []) clientId := by
          simp only [ssOf]
          rw [subFold_symbolSubscribers, if_pos hmem]
          rfl
        rw [hssOf, delS_addS _ _ (hnotin s hmem)]
        cases hpre : h.symbolSubscribers s with
        | none => simp [hpre]
        | some l =>
          have hlne : l ≠ [] := by
            intro hl
            exact (hnoempty s hmem) (by rw [hpre, hl])
          simp [hpre, hlne]
      · rw [if_neg hmem, if_neg hmem]
  · simp only [handleUnsubscription]
    cases h2.clientSubscriptions clientId2 with
    | none => exact h2ne
    | some cs => exact unsubFold_no_empty clientId2 s2 S2 h2 h2ne

/-- A concrete hub in which client `c1` is already subscribed to `VIC`. -/
def hubCE : HubState :=
  ⟨fun k => if k = "c1" then some ["VIC"] else none,
   fun k => if k = "VIC" then some ["c1"] else none,
   fun k => if k = "c1" then some true else none⟩

/-- Counterexample to C4 as stated: from a hub where client `c1` is already
subscribed to `VIC`, subscribe(`c1`, `[VIC]`) followed by
unsubscribe(`c1`, `[VIC]`) does NOT restore the indexes — the idempotent
subscribe adds nothing but the unsubscribe removes the pre-existing
subscription, leaving the client's interest entry empty instead of `[VIC]`. -/
theorem sub_unsub_roundtrip_counterexample :
    (handleUnsubscription "c1" "match-price" ["VIC"]
        (handleSubscription "c1" "match-price" ["VIC"] hubCE)).clientSubscriptions "c1"
      ≠ hubCE.clientSubscriptions "c1"
    ∧ (handleUnsubscription "c1" "match-price" ["VIC"]
        (handleSubscription "c1" "match-price" ["VIC"] hubCE)).clientSubscriptions "c1"
      = some []
    ∧ hubCE.clientSubscriptions "c1" = some ["VIC"] := by
  refine ⟨?_, rfl, rfl⟩
  intro hcontr
  rw [show (handleUnsubscription "c1" "match-price" ["VIC"]
      (handleSubscription "c1" "match-price" ["VIC"] hubCE)).clientSubscriptions "c1"
      = some [] from rfl,
    show hubCE.clientSubscriptions "c1" = some ["VIC"] from rfl] at hcontr
  simp at hcontr

/-- A concrete hub in which client `c1` is subscribed to `VNM` only. -/
def hubW : HubState :=
  ⟨fun k => if k = "c1" then some ["VNM"] else none,
   fun k => if k = "VNM" then some ["c1"] else none,
   fun k => if k = "c1" then some true else none⟩

/-- Witness for the amended C4 at a concrete hub: subscribing `c1` to `VIC`
and unsubscribing it again restores both indexes of `hubW` exactly. -/
theorem sub_unsub_roundtrip_witness :
    ((handleUnsubscription "c1" "bid-ask" ["VIC"]
        (handleSubscription "c1" "match-price" ["VIC"] hubW)).clientSubscriptions
        = hubW.clientSubscriptions
      ∧ (handleUnsubscription "c1" "bid-ask" ["VIC"]
          (handleSubscription "c1" "match-price" ["VIC"] hubW)).symbolSubscribers
        = hubW.symbolSubscribers)
    ∧ (handleUnsubscription "c2" "bid-ask" ["VNM"] hubW).symbolSubscribers "VNM"
      ≠ some [] :=
  sub_unsub_roundtrip hubW hubW "c1" "c2" "match-price" "bid-ask" "bid-ask" "VNM"
    ["VIC"] ["VNM"] ["VNM"] (by rfl) (by decide) (by decide) (by decide) (by decide)

/-- The result of serializing a payload (`Buffer.from(JSON.stringify(data))`
in broadcast-service.js:578-582); kept abstract as an injective wrapper. -/
structure Binary (α : Type) : Type where
  payload : α
deriving DecidableEq

/-- `BroadcastService.convertToBinaryData` (broadcast-service.js:578-582). -/
def convertToBinaryData {α : Type} (data : α) : Binary α := ⟨data⟩

/-- Observable effects of one `broadcastUpdate` call: number of
serializations performed, the emits `(clientId, eventType, bytes)` in order,
and the subscribers skipped because their socket was absent or not
connected. -/
structure BroadcastResult (α : Type) : Type where
  serializations : Nat
  sends : List (String × String × Binary α)
  skipped : List String
deriving DecidableEq

/-- One iteration of the `subscribers.forEach` loop in
`BroadcastService.broadcastUpdate` (broadcast-service.js:554-568): emit to the
client when its socket exists and is connected, otherwise skip it (warn) —
never abort the loop. -/
def sendStep {α : Type} (h : HubState) (eventType : String) (binaryData : Binary α)
    (acc : BroadcastResult α) (clientId : String) : BroadcastResult α :=
  match h.connectedClients clientId with
  | some true => { acc with sends := acc.sends ++ [(clientId, eventType, binaryData)] }
  | _ => { acc with skipped := acc.skipped ++ [clientId] }

/-- `BroadcastService.broadcastUpdate` (broadcast-service.js:540-571): if the
symbol has no subscriber entry or an empty one, return at once with no
serialization and no sends; otherwise serialize the payload once and deliver
the same bytes to every connected subscriber. -/
def broadcastUpdate {α : Type} (symbol eventType : String) (data : α)
    (h : HubState) : BroadcastResult α :=
  match h.symbolSubscribers symbol with
  | none => ⟨0, [], []⟩
  | some subs =>
    if subs = [] then ⟨0, [], []⟩
    else
      let binaryData := convertToBinaryData data
      subs.foldl (sendStep h eventType binaryData) ⟨1, [], []⟩

theorem sendFold_spec {α : Type} (h : HubState) (eventType : String)
    (bd : Binary α) (subs : List String) (acc : BroadcastResult α) :
    subs.foldl (sendStep h eventType bd) acc
      = ⟨acc.serializations,
         acc.sends ++ (subs.filter
            (fun c => decide (h.connectedClients c = some true))).map
            (fun c => (c, eventType, bd)),
         acc.skipped ++ subs.filter
            (fun c => !(decide (h.connectedClients c = some true)))⟩ := by
  induction subs generalizing acc with
  | nil => simp
  | cons x xs ih =>
    rw [List.foldl_cons, ih]
    cases hx : h.connectedClients x with
    | none => simp [sendStep, hx]
    | some b => cases b <;> simp [sendStep, hx]

/-- C5: a publish for a symbol with no (or an empty) subscriber entry
performs zero serializations and zero sends; otherwise it serializes exactly
once and emits the identical bytes, in subscriber order, to exactly the
subscribers whose socket is present and connected, skipping the others
without error. -/
theorem broadcastUpdate_spec {α : Type} (h : HubState) (symbol eventType : String)
    (data : α) :
    ((h.symbolSubscribers symbol).getD [] = []
      → broadcastUpdate symbol eventType data h = ⟨0, [], []⟩)
    ∧ ((h.symbolSubscribers symbol).getD [] ≠ []
      → broadcastUpdate symbol eventType data h
        = ⟨1,
           (((h.symbolSubscribers symbol).getD []).filter
              (fun c => decide (h.connectedClients c = some true))).map
              (fun c => (c, eventType, convertToBinaryData data)),
           ((h.symbolSubscribers symbol).getD []).filter
              (fun c => !(decide (h.connectedClients c = some true)))⟩) := by
  constructor
  · intro hemp
    cases hss : h.symbolSubscribers symbol with
    | none => simp [broadcastUpdate, hss]
    | some subs =>
      rw [hss] at hemp
      simp only [Option.getD_some] at hemp
      simp [broadcastUpdate, hss, hemp]
  · intro hne
    cases hss : h.symbolSubscribers symbol with
    | none =>
      rw [hss] at hne
      simp at hne
    | some subs =>
      rw [hss] at hne
      simp only [Option.getD_some] at hne
      simp only [broadcastUpdate, hss, if_neg hne]
      rw [sendFold_spec]
      simp

/-- Witness for C5 at a concrete hub (`hubW`): publishing for untracked
symbol `AAA` does nothing, and publishing for `VNM` serializes once and
emits exactly to the connected subscriber `c1`. -/
theorem broadcastUpdate_spec_witness :
    broadcastUpdate "AAA" "match-price" (JVal.num 7) hubW
      = ⟨0, [], []⟩
    ∧ broadcastUpdate "VNM" "match-price" (JVal.num 7) hubW
      = ⟨1, [("c1", "match-price", convertToBinaryData (JVal.num 7))], []⟩ := by
  constructor
  · exact (broadcastUpdate_spec hubW "AAA" "match-price" (JVal.num 7)).1 (by decide)
  · have hmain := (broadcastUpdate_spec hubW "VNM" "match-price" (JVal.num 7)).2
      (by decide)
    rw [hmain]
    rfl

theorem subFold_connectedClients (clientId : String) (S : List String) (h : HubState) :
    (S.foldl (subStep clientId) h).connectedClients = h.connectedClients := by
  induction S generalizing h with
  | nil => rfl
  | cons x xs ih => rw [List.foldl_cons, ih, subStep_connectedClients]

theorem handleSubscription_connectedClients (clientId eventType : String)
    (S : List String) (h : HubState) :
    (handleSubscription clientId eventType S h).connectedClients
      = h.connectedClients := by
  simp only [handleSubscription]
  by_cases he : (h.clientSubscriptions clientId).isSome <;>
    simp [he, subFold_connectedClients]

theorem handleSubscription_symbolSubscribers (clientId eventType s : String)
    (S : List String) (h : HubState) :
    (handleSubscription clientId eventType S h).symbolSubscribers s
      = if s ∈ S
        then some (addS ((h.symbolSubscribers s).getD []) clientId)
        else h.symbolSubscribers s := by
  simp only [handleSubscription]
  by_cases he : (h.clientSubscriptions clientId).isSome <;>
    simp [he, subFold_symbolSubscribers]

/-- C6: after `handleDisconnection`, for every symbol the client was
subscribed to, the client is gone from that symbol's subscriber set, from the
client index, and from the connection map, and a subsequent
`broadcastUpdate` for that symbol emits nothing to it. -/
theorem disconnect_removes_client {α : Type} (h : HubState)
    (clientId s eventType : String) (data : α)
    (hs : s ∈ (h.clientSubscriptions clientId).getD []) :
    clientId ∉ ssOf (handleDisconnection clientId h) s
    ∧ (handleDisconnection clientId h).clientSubscriptions clientId = none
    ∧ (handleDisconnection clientId h).connectedClients clientId = none
    ∧ (broadcastUpdate s eventType data (handleDisconnection clientId h)).sends.all
        (fun p => p.1 != clientId) = true := by
  have hcsof : s ∈ csOf h clientId := hs
  refine ⟨?_, ?_, ?_, ?_⟩
  · rw [mem_ssOf_handleDisconnection]
    rintro ⟨_, hni⟩
    exact (hni rfl) hcsof
  · cases hcs : h.clientSubscriptions clientId with
    | none =>
      rw [hcs] at hs
      simp at hs
    | some cs =>
      simp only [handleDisconnection, hcs]
      exact mapUpd_apply_self _ _ _
  · rw [connectedClients_handleDisconnection, if_pos rfl]
  · have hconn : (handleDisconnection clientId h).connectedClients clientId = none := by
      rw [connectedClients_handleDisconnection, if_pos rfl]
    rw [List.all_eq_true]
    intro p hp
    cases hss : (handleDisconnection clientId h).symbolSubscribers s with
    | none =>
      simp only [broadcastUpdate, hss] at hp
      exact absurd hp (List.not_mem_nil p)
    | some subs =>
      by_cases hemp : subs = []
      · simp only [broadcastUpdate, hss, if_pos hemp] at hp
        exact absurd hp (List.not_mem_nil p)
      · simp only [broadcastUpdate, hss, if_neg hemp] at hp
        rw [sendFold_spec] at hp
        simp only [List.nil_append] at hp
        rcases List.mem_map.1 hp with ⟨c, hcf, hpc⟩
        rcases List.mem_filter.1 hcf with ⟨_, hctrue⟩
        subst hpc
        simp only [bne_iff_ne, ne_eq, decide_eq_true_eq] at hctrue ⊢
        intro hce
        rw [hce, hconn] at hctrue
        exact Option.noConfusion hctrue

/-- Witness for C6: in `hubW`, client `c1` holds `VNM`; after disconnecting
`c1`, it is absent from `VNM`'s subscriber set, both maps drop it, and a
publish for `VNM` emits nothing to it. -/
theorem disconnect_removes_client_witness :
    "c1" ∉ ssOf (handleDisconnection "c1" hubW) "VNM"
    ∧ (handleDisconnection "c1" hubW).clientSubscriptions "c1" = none
    ∧ (handleDisconnection "c1" hubW).connectedClients "c1" = none
    ∧ (broadcastUpdate "VNM" "match-price" (JVal.num 5)
        (handleDisconnection "c1" hubW)).sends.all
        (fun p => p.1 != "c1") = true :=
  disconnect_removes_client hubW "c1" "VNM" "match-price" (JVal.num 5) (by decide)

/-- C9: `handleSubscription` ignores its `eventType` argument — subscriptions
go into the single per-client interest set — so after a subscription that
arrived on one channel, a publish of any event type for a subscribed symbol
is delivered to the (connected) client. -/
theorem subscription_channel_agnostic {α : Type} (h : HubState)
    (clientId s et1 et2 et3 : String) (S : List String) (data : α)
    (hconn : h.connectedClients clientId = some true)
    (hmem : s ∈ S) :
    handleSubscription clientId et1 S h = handleSubscription clientId et2 S h
    ∧ (clientId, et3, convertToBinaryData data)
        ∈ (broadcastUpdate s et3 data (handleSubscription clientId et1 S h)).sends := by
  constructor
  · rfl
  · have hss : (handleSubscription clientId et1 S h).symbolSubscribers s
        = some (addS ((h.symbolSubscribers s).getD []) clientId) := by
      rw [handleSubscription_symbolSubscribers, if_pos hmem]
    have hne : addS ((h.symbolSubscribers s).getD []) clientId ≠ [] :=
      List.ne_nil_of_mem (addS_mem_self clientId _)
    simp only [broadcastUpdate, hss, if_neg hne]
    rw [sendFold_spec]
    simp only [List.nil_append]
    apply List.mem_map.2
    refine ⟨clientId, ?_, rfl⟩
    apply List.mem_filter.2
    refine ⟨addS_mem_self clientId _, ?_⟩
    rw [handleSubscription_connectedClients, hconn]
    simp

/-- Witness for C9: in `hubW`, client `c1` subscribes to `VIC` on the
`match-price` channel; a `bid-ask` publish for `VIC` is delivered to it. -/
theorem subscription_channel_agnostic_witness :
    handleSubscription "c1" "match-price" ["VIC"] hubW
      = handleSubscription "c1" "bid-ask" ["VIC"] hubW
    ∧ ("c1", "bid-ask", convertToBinaryData (JVal.num 3))
        ∈ (broadcastUpdate "VIC" "bid-ask" (JVal.num 3)
            (handleSubscription "c1" "match-price" ["VIC"] hubW)).sends :=
  subscription_channel_agnostic hubW "c1" "VIC" "match-price" "bid-ask" "bid-ask"
    ["VIC"] (JVal.num 3) (by decide) (by decide)

/-- One level of an order book in a decoded `bid-ask` message. -/
structure PriceLevel : Type where
  price : ℚ
  volume : ℚ
deriving DecidableEq

/-- A decoded feed message (`messageType.toObject(...)` with `defaults: true`
in realtime-manager.js:181-186): the union of the fields `updateCache` reads.
JS numbers are embedded as rationals (float rounding is not modelled; none of
the verified claims depends on it) and `time` as the string the code copies
verbatim. -/
structure DecodedMsg : Type where
  symbol : String
  code : String
  time : String
  matchPrice : ℚ
  matchVol : ℚ
  referencePrice : ℚ
  accumulatedVolume : ℚ
  accumulatedValue : ℚ
  currentRoom : ℚ
  foreignBuyVolume : ℚ
  foreignSellVolume : ℚ
  avgMatchPrice : ℚ
  highest : ℚ
  lowest : ℚ
  bidPrices : List PriceLevel
  askPrices : List PriceLevel
  price : ℚ
  change : ℚ
  changePercent : ℚ
  totalShares : ℚ
  totalValue : ℚ
  totalStockIncrease : ℚ
  totalStockDecline : ℚ
  totalStockNoChange : ℚ
  totalStockCeiling : ℚ
  totalStockFloor : ℚ
  estimatedChange : ℚ
  estimatedFsp : ℚ
deriving DecidableEq

/-- Boolean test that `pat` is a prefix of `l`. -/
def isPrefixL (pat l : List Char) : Bool :=
  match pat, l with
  | [], _ => true
  | _ :: _, [] => false
  | p :: ps, c :: cs => p == c && isPrefixL ps cs

/-- Boolean test that `pat` occurs as a contiguous run in the list. -/
def containsL (pat : List Char) : List Char → Bool
  | [] => isPrefixL pat []
  | c :: cs => isPrefixL pat (c :: cs) || containsL pat cs

/-- JS `String.prototype.includes`: substring containment. -/
def strContains (s pat : String) : Bool := containsL pat.data s.data

/-- `RealtimeManager.updateCache` (realtime-manager.js:227-296): a
`match-price` message merges the thirteen Vietnamese-named trade fields into
the symbol's stock record; a `bid-ask` message merges the twelve order-book
fields (missing levels default to 0); an `index` message writes a full
market-index record, but only when the symbol contains the substring `VN30`;
every other combination leaves the cache untouched. The percent field uses
rational division (JS float division is not modelled) and `tb` models
`avgMatchPrice ? Number(avgMatchPrice.toFixed(0)) : avgMatchPrice` with 0 the
only falsy rational. -/
def updateCache (message : DecodedMsg) (type : String) (c : CacheState) : CacheState :=
  let symbol := message.symbol
  if type = "match-price" then
    updateStockData symbol (objOfList
      [("khopLenhGia", .num message.matchPrice),
       ("khopLenhKL", .num message.matchVol),
       ("khopLenhChange", .num (message.matchPrice - message.referencePrice)),
       ("khopLenhPercent", .num
          (((message.matchPrice - message.referencePrice) / message.referencePrice) * 100)),
       ("khopLenhKLGD", .num message.accumulatedVolume),
       ("khopLenhGTGD", .num message.accumulatedValue),
       ("gtgdTT", .num message.accumulatedValue),
       ("nnRoom", .num message.currentRoom),
       ("nnMua", .num message.foreignBuyVolume),
       ("nnBan", .num message.foreignSellVolume),
       ("tb", .num (if message.avgMatchPrice = 0 then message.avgMatchPrice
          else ((round message.avgMatchPrice : ℤ) : ℚ))),
       ("cao", .num message.highest),
       ("thap", .num message.lowest)]) c
  else if type = "bid-ask" then
    updateStockData symbol (objOfList
      [("duMuaGia1", .num (((message.bidPrices.get? 0).map PriceLevel.price).getD 0)),
       ("duMuaKL1", .num (((message.bidPrices.get? 0).map PriceLevel.volume).getD 0)),
       ("duMuaGia2", .num (((message.bidPrices.get? 1).map PriceLevel.price).getD 0)),
       ("duMuaKL2", .num (((message.bidPrices.get? 1).map PriceLevel.volume).getD 0)),
       ("duMuaGia3", .num (((message.bidPrices.get? 2).map PriceLevel.price).getD 0)),
       ("duMuaKL3", .num (((message.bidPrices.get? 2).map PriceLevel.volume).getD 0)),
       ("duBanGia1", .num (((message.askPrices.get? 0).map PriceLevel.price).getD 0)),
       ("duBanKL1", .num (((message.askPrices.get? 0).map PriceLevel.volume).getD 0)),
       ("duBanGia2", .num (((message.askPrices.get? 1).map PriceLevel.price).getD 0)),
       ("duBanKL2", .num (((message.askPrices.get? 1).map PriceLevel.volume).getD 0)),
       ("duBanGia3", .num (((message.askPrices.get? 2).map PriceLevel.price).getD 0)),
       ("duBanKL3", .num (((message.askPrices.get? 2).map PriceLevel.volume).getD 0))]) c
  else if type = "index" ∧ strContains message.symbol "VN30" = true then
    setMarketIndex symbol (objOfList
      [("code", .str message.code),
       ("symbol", .str message.symbol),
       ("price", .num message.price),
       ("change", .num message.change),
       ("changePercent", .num message.changePercent),
       ("totalShares", .num message.totalShares),
       ("totalValue", .num message.totalValue),
       ("totalStockIncrease", .num message.totalStockIncrease),
       ("totalStockDecline", .num message.totalStockDecline),
       ("totalStockNoChange", .num message.totalStockNoChange),
       ("totalStockCeiling", .num message.totalStockCeiling),
       ("totalStockFloor", .num message.totalStockFloor),
       ("estimatedChange", .num message.estimatedChange),
       ("estimatedFsp", .num message.estimatedFsp),
       ("time", .str message.time),
       ("messageType", .str "index"),
       ("sendingTime", .str message.time)]) c
  else c

/-- The keys of `this.messageTypes` loaded by
`RealtimeManager.loadProtobufSchema` (realtime-manager.js:65-75). -/
def messageTypeKeys : List String :=
  ["index", "match-price", "oddLotMatchPrice", "futureMatchPrice", "bid-ask",
   "oddLotBidAsk", "putThrough", "advertise", "globalPrice"]

/-- An observable step of `RealtimeManager.handleMessage`: the cache write and
the `onUpdateCallback` invocation (which the server wires to
`broadcastService.broadcastUpdate(message.symbol, type, message)` in the
`startServer` composition). -/
inductive PipelineStep : Type where
  | cacheUpd (message : DecodedMsg) (type : String)
  | publish (message : DecodedMsg) (type : String)
deriving DecidableEq

/-- `RealtimeManager.handleMessage` (realtime-manager.js:169-220). The binary
buffer is embedded by its decode outcome (`messageType.decode` either throws —
`Except.error` — or yields a decoded message). The whole body runs inside
`try/catch`, so the function is total: a decode failure, an unknown type, or
a missing (empty) `symbol` drops the single message with no cache write, no
callback, no error to the caller, and no effect on the socket; otherwise the
cache is updated first and the callback invoked second. -/
def handleMessage (hasCallback : Bool) (type : String)
    (decoded : Except String DecodedMsg) (c : CacheState) :
    CacheState × List PipelineStep :=
  if messageTypeKeys.contains type = false then (c, [])
  else
    match decoded with
    | .error _ => (c, [])
    | .ok message =>
      if message.symbol = "" then (c, [])
      else
        (updateCache message type c,
         [PipelineStep.cacheUpd message type]
           ++ (if hasCallback then [PipelineStep.publish message type] else []))

/-- C7: for a known message type, a successfully decoded message with a
symbol is applied to the cache and then published — in that order, with the
same decoded message — while a decode failure or a missing symbol drops just
that message: the cache is unchanged, nothing is published, and no error
escapes (the embedded result type has no error case). -/
theorem handleMessage_order_and_errors (type e : String) (m : DecodedMsg)
    (c : CacheState) (hk : messageTypeKeys.contains type = true) :
    (m.symbol ≠ "" → handleMessage true type (Except.ok m) c
        = (updateCache m type c,
           [PipelineStep.cacheUpd m type, PipelineStep.publish m type]))
    ∧ handleMessage true type (Except.error e) c = (c, [])
    ∧ (m.symbol = "" → handleMessage true type (Except.ok m) c = (c, [])) := by
  have hmem : type ∈ messageTypeKeys := by simpa using hk
  refine ⟨fun hs => ?_, ?_, fun hs => ?_⟩
  · simp [handleMessage, hmem, hs]
  · simp [handleMessage, hmem]
  · simp [handleMessage, hmem, hs]

/-- A concrete decoded trade-match message for symbol `VIC`. -/
def msgVic : DecodedMsg :=
  { symbol := "VIC", code := "VIC", time := "0",
    matchPrice := 10, matchVol := 5, referencePrice := 8,
    accumulatedVolume := 100, accumulatedValue := 1000, currentRoom := 1,
    foreignBuyVolume := 2, foreignSellVolume := 3, avgMatchPrice := 9,
    highest := 11, lowest := 7, bidPrices := [], askPrices := [],
    price := 0, change := 0, changePercent := 0, totalShares := 0,
    totalValue := 0, totalStockIncrease := 0, totalStockDecline := 0,
    totalStockNoChange := 0, totalStockCeiling := 0, totalStockFloor := 0,
    estimatedChange := 0, estimatedFsp := 0 }

/-- An empty cache. -/
def emptyCache : CacheState := ⟨fun _ => none, fun _ => none⟩

/-- Witness for C7 at concrete inputs: a decoded `match-price` message for
`VIC` produces the cache write followed by the publish, and a decode failure
leaves the cache untouched with nothing published. -/
theorem handleMessage_order_and_errors_witness :
    (msgVic.symbol ≠ "" → handleMessage true "match-price" (Except.ok msgVic) emptyCache
        = (updateCache msgVic "match-price" emptyCache,
           [PipelineStep.cacheUpd msgVic "match-price",
            PipelineStep.publish msgVic "match-price"]))
    ∧ handleMessage true "match-price" (Except.error "decode failed") emptyCache
      = (emptyCache, [])
    ∧ (msgVic.symbol = "" → handleMessage true "match-price" (Except.ok msgVic) emptyCache
        = (emptyCache, [])) :=
  handleMessage_order_and_errors "match-price" "decode failed" msgVic emptyCache
    (by decide)

/-- C10: a decoded `index` event whose symbol does not contain the substring
`VN30` leaves the whole cache state unchanged — no stock-data entry and no
market-index entry is touched — while the event (when its symbol is
non-empty) is still handed to the publish callback. -/
theorem index_without_vn30_skips_cache (c : CacheState) (m : DecodedMsg)
    (hns : strContains m.symbol "VN30" = false) (hsym : m.symbol ≠ "") :
    updateCache m "index" c = c
    ∧ handleMessage true "index" (Except.ok m) c
        = (c, [PipelineStep.cacheUpd m "index", PipelineStep.publish m "index"]) := by
  have hupd : updateCache m "index" c = c := by
    simp [updateCache, hns]
  refine ⟨hupd, ?_⟩
  have hmem : ("index" : String) ∈ messageTypeKeys := by decide
  simp [handleMessage, hmem, hsym, hupd]

/-- A concrete decoded `index` message for `VNINDEX` (no `VN30` substring). -/
def msgVnindex : DecodedMsg :=
  { msgVic with
    symbol := "VNINDEX",
    code := "VNINDEX",
    price := 1200,
    change := 3,
    changePercent := 1 }

/-- Witness for C10: an `index` event for `VNINDEX` leaves the empty cache
unchanged yet is still published. -/
theorem index_without_vn30_skips_cache_witness :
    updateCache msgVnindex "index" emptyCache = emptyCache
    ∧ handleMessage true "index" (Except.ok msgVnindex) emptyCache
        = (emptyCache,
           [PipelineStep.cacheUpd msgVnindex "index",
            PipelineStep.publish msgVnindex "index"]) :=
  index_without_vn30_skips_cache emptyCache msgVnindex (by decide) (by decide)

/-- The embedded connection state of `RealtimeManager`
(realtime-manager.js:14-17): the `isConnected` flag and the
`reconnectAttempts` counter. -/
structure FeedState : Type where
  isConnected : Bool
  reconnectAttempts : Nat
deriving DecidableEq

/-- `this.maxReconnectAttempts` (realtime-manager.js:17), equal to the
`reconnectionAttempts` option passed to the socket (line 92). -/
def maxReconnectAttempts : Nat := 5

/-- A subscription message emitted upstream (`socket.emit(channel, json)`). -/
inductive FeedEmit : Type where
  | emitSub (channel : String) (symbols : List String)
deriving DecidableEq

/-- `RealtimeManager.subscribeToSymbols` (realtime-manager.js:144-162): when
connected, emit the `match-price` and `bid-ask` subscriptions for the tracked
symbols plus the fixed index-list subscription; otherwise warn and emit
nothing. -/
def subscribeToSymbols (symbols : List String) (s : FeedState) : List FeedEmit :=
  if s.isConnected then
    [.emitSub "match-price" symbols, .emitSub "bid-ask" symbols,
     .emitSub "index" ["VN30", "VNINDEX", "HNX30", "HNXIndex", "HNXUpcomIndex"]]
  else []

/-- The transport events handled by
`RealtimeManager.setupSocketEventHandlers` (realtime-manager.js:102-139) that
change connection state: a successful connect, a failed connection attempt
(`connect_error`), and a transport disconnect. -/
inductive FeedEvent : Type where
  | connectOk
  | connectFail
  | disconnectEv
deriving DecidableEq

/-- The event handlers of realtime-manager.js:106-125: `connect` sets
`isConnected`, resets the attempt counter to 0 and calls
`subscribeToSymbols`; `connect_error` increments the counter (and only logs
when it reaches the maximum); `disconnect` clears `isConnected`. -/
def feedStep (symbols : List String) (s : FeedState) :
    FeedEvent → FeedState × List FeedEmit
  | .connectOk =>
    let s1 : FeedState := { isConnected := true, reconnectAttempts := 0 }
    (s1, subscribeToSymbols symbols s1)
  | .connectFail => ({ s with reconnectAttempts := s.reconnectAttempts + 1 }, [])
  | .disconnectEv => ({ s with isConnected := false }, [])

/-- Whether the transport will schedule another automatic reconnection
attempt: the socket is created with `reconnectionAttempts: 5`
(realtime-manager.js:88-94), so the library retries only while the count of
consecutive failed attempts is below the maximum — the same bound the
`connect_error` handler checks on line 122. -/
def canAutoRetry (s : FeedState) : Bool :=
  decide (s.reconnectAttempts < maxReconnectAttempts)

/-- `RealtimeManager.cleanup` (realtime-manager.js:327-341): tears down the
socket and clears `isConnected`; it does NOT touch `reconnectAttempts`. -/
def cleanup (s : FeedState) : FeedState := { s with isConnected := false }

/-- Run a sequence of transport events through the handlers. -/
def feedRun (symbols : List String) (s : FeedState) (evs : List FeedEvent) :
    FeedState :=
  evs.foldl (fun st e => (feedStep symbols st e).1) s

theorem feedRun_connectFail (symbols : List String) (n : Nat) (s : FeedState) :
    (feedRun symbols s (List.replicate n FeedEvent.connectFail)).reconnectAttempts
      = s.reconnectAttempts + n := by
  induction n generalizing s with
  | zero => rfl
  | succ k ih =>
    rw [List.replicate_succ]
    have h1 : feedRun symbols s (FeedEvent.connectFail :: List.replicate k FeedEvent.connectFail)
        = feedRun symbols (feedStep symbols s FeedEvent.connectFail).1
            (List.replicate k FeedEvent.connectFail) := rfl
    rw [h1, ih]
    simp only [feedStep]
    omega

/-- C8 (amended): after `maxReconnectAttempts` (5) consecutive failed
connection attempts the counter reaches 5 and the transport, configured with
`reconnectionAttempts: 5`, schedules no further automatic attempts; any
successful connect resets the counter to 0 and re-issues the three
subscription messages. The repository has no manual reconnect command: no
operation other than a successful connect resets the counter — in particular
`cleanup` leaves an exhausted counter at 5. -/
theorem reconnect_exhaustion (symbols : List String) (s0 s1 : FeedState)
    (h0 : s0.reconnectAttempts = 0) :
    (feedRun symbols s0
        (List.replicate maxReconnectAttempts FeedEvent.connectFail)).reconnectAttempts
      = maxReconnectAttempts
    ∧ canAutoRetry (feedRun symbols s0
        (List.replicate maxReconnectAttempts FeedEvent.connectFail)) = false
    ∧ (feedStep symbols s1 FeedEvent.connectOk).1.reconnectAttempts = 0
    ∧ (feedStep symbols s1 FeedEvent.connectOk).2
      = [FeedEmit.emitSub "match-price" symbols,
         FeedEmit.emitSub "bid-ask" symbols,
         FeedEmit.emitSub "index" ["VN30", "VNINDEX", "HNX30", "HNXIndex", "HNXUpcomIndex"]]
    ∧ (cleanup (feedRun symbols s0
        (List.replicate maxReconnectAttempts FeedEvent.connectFail))).reconnectAttempts
      = maxReconnectAttempts := by
  have hrun := feedRun_connectFail symbols maxReconnectAttempts s0
  rw [h0] at hrun
  refine ⟨by rw [hrun]; omega, ?_, rfl, rfl, ?_⟩
  · simp only [canAutoRetry, hrun]
    simp [maxReconnectAttempts]
  · simp only [cleanup]
    rw [hrun]
    omega

/-- Witness for C8 at concrete inputs. -/
theorem reconnect_exhaustion_witness :
    (feedRun ["VIC"] ⟨false, 0⟩
        (List.replicate maxReconnectAttempts FeedEvent.connectFail)).reconnectAttempts
      = maxReconnectAttempts
    ∧ canAutoRetry (feedRun ["VIC"] ⟨false, 0⟩
        (List.replicate maxReconnectAttempts FeedEvent.connectFail)) = false
    ∧ (feedStep ["VIC"] ⟨false, 3⟩ FeedEvent.connectOk).1.reconnectAttempts = 0
    ∧ (feedStep ["VIC"] ⟨false, 3⟩ FeedEvent.connectOk).2
      = [FeedEmit.emitSub "match-price" ["VIC"],
         FeedEmit.emitSub "bid-ask" ["VIC"],
         FeedEmit.emitSub "index" ["VN30", "VNINDEX", "HNX30", "HNXIndex", "HNXUpcomIndex"]]
    ∧ (cleanup (feedRun ["VIC"] ⟨false, 0⟩
        (List.replicate maxReconnectAttempts FeedEvent.connectFail))).reconnectAttempts
      = maxReconnectAttempts :=
  reconnect_exhaustion ["VIC"] ⟨false, 0⟩ ⟨false, 3⟩ rfl

/-- Counterexample to C8 as stated: the claimed manual reconnect command does
not exist in the code. From the exhausted state (counter 5), every operation
other than a successful connect — a further `connect_error`, a `disconnect`
event, or `cleanup` (the only manual teardown/restart path) — leaves the
counter at 5 or raises it, never resets it to 0, and the transport schedules
no further automatic attempts. -/
theorem reconnect_exhaustion_counterexample :
    (feedStep [] ⟨false, 5⟩ FeedEvent.connectFail).1.reconnectAttempts = 6
    ∧ (feedStep [] ⟨false, 5⟩ FeedEvent.disconnectEv).1.reconnectAttempts = 5
    ∧ (cleanup ⟨false, 5⟩).reconnectAttempts = 5
    ∧ canAutoRetry ⟨false, 5⟩ = false := by
  refine ⟨rfl, rfl, rfl, by decide⟩
